import Mathlib

/-!
Verification of the viewer builder (`auth_builder.ts`) of openapi-to-graphql.

This file gives a shallow embedding of `src/packages/openapi-to-graphql/src/auth_builder.ts`
and proves the specified properties of `createAndLoadViewer`, `getViewerOT` and
`getViewerAnyAuthOT`.

JavaScript objects are modelled as ordered association lists (`JSObj`) with
JavaScript assignment semantics: assigning to an existing key updates the value
in place, assigning to a fresh key appends the entry at the end.  External
collaborators of the module (string sanitization, the sanitize table, the
key-sorting utility, the warning sink and the GraphQL type constructors) are
modelled separately and are marked as such in their doc comments.
-/

set_option autoImplicit false

namespace AuthBuilder

/-! ## JavaScript object model -/

/-- A JavaScript object: an ordered association list from string keys to values. -/
abbrev JSObj (α : Type) : Type := List (String × α)

/-- Property read `o[k]`: the value stored under `k`, if any. -/
def JSObj.lookup {α : Type} : JSObj α → String → Option α
  | [], _ => none
  | (k1, v) :: rest, k => if k1 = k then some v else JSObj.lookup rest k

/-- Property write `o[k] = v`: updates an existing key in place, otherwise
appends the new entry at the end (JavaScript insertion order semantics). -/
def JSObj.insert {α : Type} : JSObj α → String → α → JSObj α
  | [], k, v => [(k, v)]
  | (k1, v1) :: rest, k, v =>
    if k1 = k then (k1, v) :: rest else (k1, v1) :: JSObj.insert rest k v

/-- The operation `Object.assign(target, source)`: copy every property of `source` into
`target`, later same-named properties overwriting earlier ones. -/
def JSObj.assign {α : Type} (target source : JSObj α) : JSObj α :=
  source.foldl (fun t p => JSObj.insert t p.1 p.2) target

/-- The ordered key list of an object. -/
def JSObj.keys {α : Type} (o : JSObj α) : List String :=
  o.map Prod.fst

/-! ## Decimal rendering of a natural number

`viewerName += usedViewerNames[type].length + 1` coerces a JavaScript number to
its decimal string; this models that coercion for natural numbers. -/

/-- Decimal digit characters of `n` (empty for `0`), with `fuel ≥ n` as a
structural termination measure. -/
def natToChars : Nat → Nat → List Char
  | 0, _ => []
  | fuel + 1, n =>
    if n = 0 then [] else natToChars fuel (n / 10) ++ [Char.ofNat (48 + n % 10)]

/-- The decimal string of a natural number, as produced by JavaScript number to
string coercion. -/
def natToString (n : Nat) : String :=
  if n = 0 then "0" else String.mk (natToChars n n)

/-- Decode a list of decimal digit characters back to a natural number. -/
def decodeDecimal (l : List Char) : Nat :=
  l.foldl (fun a c => a * 10 + (c.toNat - 48)) 0

/-! ## Modelled external collaborators -/

/-- One part of `Oas3Tools.sanitize`: is the character kept by the splitting
regular expression `[^a-zA-Z0-9]` (i.e. is it alphanumeric)? -/
def isAlnum (c : Char) : Bool :=
  c.isAlpha || c.isDigit

/-- Split a character list at every non-alphanumeric character, returning the
first part and the list of the later parts (`n` separators give `n + 1` parts,
as with JavaScript `String.split`). -/
def splitNonAlnum : List Char → List Char × List (List Char)
  | [] => ([], [])
  | c :: cs =>
    let r := splitNonAlnum cs
    if isAlnum c then (c :: r.1, r.2) else ([], r.1 :: r.2)

/-- Capitalize the first character of a part. -/
def capitalizePart : List Char → List Char
  | [] => []
  | c :: cs => c.toUpper :: cs

/-- Modelled from the spec: `sanitizeIdentifier` (`Oas3Tools.sanitize`, which is
outside this slice).  It normalizes a raw name into an identifier-safe form:
the name is split at non-alphanumeric characters and the parts are joined in
camel case (so a two-word raw name such as `viewer apiKey` becomes the single
identifier `viewerApiKey`). -/
def sanitize (str : String) : String :=
  let r := splitNonAlnum str.data
  String.mk (r.1 ++ (r.2.map capitalizePart).flatten)

/-- Modelled from the spec: `sanitizeAndRegister` (`Oas3Tools.sanitizeAndStore`,
which is outside this slice).  It sanitizes the raw name and registers the raw
name under its sanitized form in the given table, so that downstream code can
recover the raw name from the safe name; it returns the safe name together with
the updated table. -/
def sanitizeAndStore (str : String) (mapping : JSObj String) : String × JSObj String :=
  (sanitize str, JSObj.insert mapping (sanitize str) str)

/-- Lexicographic comparison of character lists (by the character code). -/
def charLexLe : List Char → List Char → Bool
  | [], _ => true
  | _ :: _, [] => false
  | a :: as, b :: bs => if a = b then charLexLe as bs else decide (a < b)

/-- Lexicographic order on strings, used by the key-sorting utility. -/
def lexLe (a b : String) : Bool :=
  charLexLe a.data b.data

/-- The sorting relation on object entries: compare the keys lexicographically. -/
def keyLe {α : Type} (a b : String × α) : Prop :=
  lexLe a.1 b.1 = true

instance {α : Type} : DecidableRel (@keyLe α) :=
  fun a b => decEq (lexLe a.1 b.1) true

/-- Modelled from the spec: `sortByKey` (`sortObject` from `utils`, which is
outside this slice).  It rebuilds an object with its keys in ascending
lexicographic order. -/
def sortObject {α : Type} (o : JSObj α) : JSObj α :=
  List.insertionSort keyLe o

/-- A warning emitted through the diagnostics channel. -/
structure Warning where
  typeKey : String
  culprit : String
deriving DecidableEq

/-- Modelled from the spec: the warning sink `handleWarning`, a non-fatal
diagnostics channel; emitting a warning produces the one-element list of
emitted warnings and raises no exception. -/
def handleWarning (typeKey culprit : String) : List Warning :=
  [⟨typeKey, culprit⟩]

/-! ## GraphQL values and types (modelled collaborators) -/

/-- A JavaScript runtime value, as far as the resolvers need: strings and
objects. -/
inductive JSValue where
  | str (s : String)
  | obj (fields : List (String × JSValue))

/-- Modelled from the spec: the GraphQL type nodes this module constructs.
`string` is `GraphQLString`, `nonNull t` is `new GraphQLNonNull(t)`, and
`inputObject fromRef schema` stands for the input-shaped schema type the
external collaborators `createDataDef` and `getGraphQLType` derive (as a
mutation-flavored input type) from a protocol's credential schema. -/
inductive GraphQLType where
  | string
  | nonNull (ofType : GraphQLType)
  | inputObject (fromRef : String) (schema : String)
deriving DecidableEq

/-- A GraphQL argument descriptor: `{ type: ... }`. -/
structure GraphQLArg where
  type : GraphQLType
deriving DecidableEq

/-- The data of a `new GraphQLObjectType({name, description, fields: () => qf})`
node (the field thunk is modelled by its value). -/
structure GraphQLObjectTypeData (F : Type) where
  name : String
  description : String
  fields : JSObj F

/-- A resolve function.  The sanitize table (`data.saneMap`) is the one piece
of shared state a resolver can touch, so it is passed in and returned
explicitly: the arguments are `(root, args, ctx)` and the current table, the
result is the returned value together with the table after the call. -/
abbrev ResolveFunction : Type :=
  JSValue → JSValue → JSValue → JSObj String → JSValue × JSObj String

/-! ## Data model of the preprocessing stage -/

/-- The `info` object of an OpenAPI document. -/
structure OasInfo where
  title : String
deriving DecidableEq

/-- An OpenAPI document, as far as this module reads it. -/
structure Oas3 where
  info : OasInfo
deriving DecidableEq

/-- The raw security scheme definition `def` of a processed scheme: its
top-level `type` and (for `http`) the optional sub-`scheme`. -/
structure SecurityDef where
  type : String
  scheme : Option String
deriving DecidableEq

/-- A `ProcessedSecurityScheme` from the preprocessing stage (`def` is spelled
`def_` because `def` is reserved in Lean). -/
structure ProcessedSecurityScheme where
  rawName : String
  def_ : SecurityDef
  parameters : JSObj String
  schema : String
  oas : Oas3
deriving DecidableEq

/-- The slice of `PreprocessingData` this module reads: the security schemes
and the sanitize table. -/
structure PreprocessingData where
  security : JSObj ProcessedSecurityScheme
  saneMap : JSObj String

/-! ## The embedded source: `auth_builder.ts` -/

/-- The resolve function of a single-protocol viewer (`getViewerOT`, lines
154-168): sanitize-and-register the protocol name, then return
`{ _openapiToGraphql: { security: { <sanitizedProtocolName>: args } } }`,
ignoring `root` and `ctx`. -/
def viewerResolve (protocolName : String) : ResolveFunction :=
  fun _root args _ctx saneMap =>
    let r := sanitizeAndStore protocolName saneMap
    (JSValue.obj [("_openapiToGraphql", JSValue.obj [("security", JSValue.obj [(r.1, args)])])],
      r.2)

/-- The resolve function of the AnyAuth viewer (`getViewerAnyAuthOT`, lines
242-248): return `{ _openapiToGraphql: { security: args } }`, ignoring `root`
and `ctx` and leaving the table alone. -/
def anyAuthResolve : ResolveFunction :=
  fun _root args _ctx saneMap =>
    (JSValue.obj [("_openapiToGraphql", JSValue.obj [("security", args)])], saneMap)

/-- The `Viewer` record produced for each viewer: the object type, the resolve
function, the argument map and the description. -/
structure Viewer (F : Type) where
  type : GraphQLObjectTypeData F
  resolve : ResolveFunction
  args : JSObj GraphQLArg
  description : String

/-- The function `getViewerOT`: build the viewer object type, resolve function and arguments
for one security protocol.  Reading `data.security[protocolName]` fails (the
JavaScript code would throw on `scheme.rawName`) when the protocol has no
security entry, hence the `Option`. -/
def getViewerOT {F : Type} (name protocolName type : String) (queryFields : JSObj F)
    (data : PreprocessingData) (oass : List Oas3) : Option (Viewer F) :=
  match JSObj.lookup data.security protocolName with
  | none => none
  | some scheme =>
    let args : JSObj GraphQLArg :=
      scheme.parameters.foldl
        (fun a p => JSObj.insert a p.1 ⟨GraphQLType.nonNull GraphQLType.string⟩) []
    let texts :=
      if oass.length = 1 then
        ("A viewer for the security protocol: \x27" ++ scheme.rawName ++ "\x27",
          "A viewer that wraps all operations authenticated via " ++ type)
      else
        ("A viewer for the security protocol \x27" ++ scheme.rawName ++ "\x27 in " ++
            scheme.oas.info.title,
          "A viewer that wraps all operations authenticated via " ++ type ++ "\n\n" ++
            "For the security scheme: " ++ scheme.oas.info.title ++ " " ++ protocolName)
    some
      { type := ⟨name, texts.1, queryFields⟩
        resolve := viewerResolve protocolName
        args := args
        description := texts.2 }

/-- The function `getViewerAnyAuthOT`: build the AnyAuth viewer.  For every protocol in
`data.security` (not only those with fields) one argument is collected under
the sanitize-and-registered protocol name, the argument map is then sorted by
key; registration threads the sanitize table, whose final state is returned
alongside the viewer. -/
def getViewerAnyAuthOT {F : Type} (name : String) (queryFields : JSObj F)
    (data : PreprocessingData) (_oass : List Oas3) : Viewer F × JSObj String :=
  let built :=
    data.security.foldl
      (fun (acc : JSObj GraphQLArg × JSObj String) p =>
        let r := sanitizeAndStore p.1 acc.2
        (JSObj.insert acc.1 r.1 ⟨GraphQLType.inputObject p.1 p.2.schema⟩, r.2))
      ([], data.saneMap)
  ({ type := ⟨name, "Warning: Not every request will work with this viewer type", queryFields⟩
     resolve := anyAuthResolve
     args := sortObject built.1
     description := "A viewer that wraps operations for all available " ++
       "authentication mechanisms" },
    built.2)

/-- The classification step of `createAndLoadViewer` (lines 75-99): `http` is
not itself an authentication protocol, so for `http` schemes the sub-`scheme`
is inspected: `basic` becomes `basicAuth`, any other sub-scheme leaves the type
name unchanged and emits one `UNSUPPORTED_HTTP_AUTH_SCHEME` warning (with
`String(scheme)` as culprit, which is `"undefined"` for a missing sub-scheme).
Every other type is used as is. -/
def classifyType (d : SecurityDef) : String × List Warning :=
  if d.type = "http" then
    match d.scheme with
    | some s =>
      if s = "basic" then ("basicAuth", [])
      else ("http", handleWarning "UNSUPPORTED_HTTP_AUTH_SCHEME" s)
    | none => ("http", handleWarning "UNSUPPORTED_HTTP_AUTH_SCHEME" "undefined")
  else (d.type, [])

/-- The viewer name before collision handling: `sanitize("viewer <type>")`, or
`sanitize("mutation viewer <type>")` in mutation mode. -/
def baseViewerName (isMutation : Bool) (type : String) : String :=
  if !isMutation then sanitize ("viewer " ++ type)
  else sanitize ("mutation viewer " ++ type)

/-- The fixed AnyAuth viewer name: `viewerAnyAuth`, or `mutationViewerAnyAuth`
in mutation mode. -/
def anyAuthObjectName (isMutation : Bool) : String :=
  if !isMutation then "viewerAnyAuth" else "mutationViewerAnyAuth"

/-- The loop state of `createAndLoadViewer`: the result mapping, the used-name
registry, the accumulated AnyAuth fields and the emitted warnings. -/
structure ViewerBuildState (F : Type) where
  results : JSObj (Viewer F)
  usedViewerNames : JSObj (List String)
  anyAuthFields : JSObj F
  warnings : List Warning

/-- One iteration of the protocol loop of `createAndLoadViewer` (lines 69-124):
merge the protocol's fields into the AnyAuth field set, classify the scheme,
build the viewer name (disambiguating with the suffix `list.length + 1` when
the name is already in the kind's list), record the name in the registry, and
store the built viewer under the name.  `none` models the exception thrown when
the protocol has no security entry. -/
def viewerLoopStep {F : Type} (data : PreprocessingData) (isMutation : Bool)
    (oass : List Oas3) (st : ViewerBuildState F) (entry : String × JSObj F) :
    Option (ViewerBuildState F) :=
  match JSObj.lookup data.security entry.1 with
  | none => none
  | some scheme =>
    let anyAuthFields := JSObj.assign st.anyAuthFields entry.2
    let c := classifyType scheme.def_
    let type := c.1
    let viewerName0 := baseViewerName isMutation type
    let list := (JSObj.lookup st.usedViewerNames type).getD []
    let viewerName :=
      if viewerName0 ∈ list then viewerName0 ++ natToString (list.length + 1)
      else viewerName0
    let usedViewerNames := JSObj.insert st.usedViewerNames type (list ++ [viewerName])
    match getViewerOT viewerName entry.1 type entry.2 data oass with
    | none => none
    | some v =>
      some
        { results := JSObj.insert st.results viewerName v
          usedViewerNames := usedViewerNames
          anyAuthFields := anyAuthFields
          warnings := st.warnings ++ c.2 }

/-- The protocol loop of `createAndLoadViewer`. -/
def viewerLoop {F : Type} (data : PreprocessingData) (isMutation : Bool)
    (oass : List Oas3) :
    List (String × JSObj F) → ViewerBuildState F → Option (ViewerBuildState F)
  | [], st => some st
  | e :: rest, st =>
    match viewerLoopStep data isMutation oass st e with
    | none => none
    | some st2 => viewerLoop data isMutation oass rest st2

/-- The function `createAndLoadViewer`: the top-level driver.  It runs the protocol loop on
the empty state and then stores the AnyAuth viewer under its fixed name.  The
result is the name-to-viewer mapping together with the final sanitize table and
the warnings emitted along the way. -/
def createAndLoadViewer {F : Type} (queryFields : JSObj (JSObj F))
    (data : PreprocessingData) (isMutation : Bool) (oass : List Oas3) :
    Option (JSObj (Viewer F) × JSObj String × List Warning) :=
  match viewerLoop data isMutation oass queryFields ⟨[], [], [], []⟩ with
  | none => none
  | some st =>
    let r := getViewerAnyAuthOT (anyAuthObjectName isMutation) st.anyAuthFields data oass
    some (JSObj.insert st.results (anyAuthObjectName isMutation) r.1, r.2, st.warnings)

/-! ## Derived notions used to state and prove the properties -/

/-- The numeric suffix the allocator appends for the `i`-th allocation (0-based)
of the same base name in one kind: nothing for the first, the list length plus
one (that is, `i + 1`) afterwards. -/
def nameSuffix (i : Nat) : String :=
  if i = 0 then "" else natToString (i + 1)

/-- The viewer name allocated for the `i`-th protocol (0-based) of auth-kind
`t`. -/
def nameAt (isMutation : Bool) (t : String) (i : Nat) : String :=
  baseViewerName isMutation t ++ nameSuffix i

/-- The list of names the registry holds for auth-kind `t` after `n`
allocations in that kind. -/
def kindNames (isMutation : Bool) (t : String) (n : Nat) : List String :=
  (List.range n).map (nameAt isMutation t)

/-- The top-level security scheme kinds of a well-formed OpenAPI 3 security
scheme object.  Modelled from the spec: the scheme's `type` (declared by the
out-of-scope OpenAPI type layer) ranges over the OpenAPI scheme kinds. -/
def allowedTypes : List String :=
  ["apiKey", "http", "oauth2", "openIdConnect"]

/-- The auth-kind labels the classifier can produce from a well-formed
top-level kind. -/
def allowedKinds : List String :=
  ["apiKey", "oauth2", "openIdConnect", "basicAuth", "http"]

/-- A protocol of `data` has a well-formed security entry: the entry exists and
its top-level kind is an OpenAPI scheme kind. -/
def WellFormedEntry (data : PreprocessingData) (p : String) : Prop :=
  match JSObj.lookup data.security p with
  | none => False
  | some s => s.def_.type ∈ allowedTypes

instance (data : PreprocessingData) (p : String) : Decidable (WellFormedEntry data p) :=
  match h : JSObj.lookup data.security p with
  | none => isFalse (by simp [WellFormedEntry, h])
  | some s =>
    if hs : s.def_.type ∈ allowedTypes then isTrue (by simp [WellFormedEntry, h, hs])
    else isFalse (by simp [WellFormedEntry, h, hs])

/-- Is `l1` a prefix of `l2`? -/
def isPref : List Char → List Char → Bool
  | [], _ => true
  | _ :: _, [] => false
  | a :: as, b :: bs => a = b && isPref as bs

/-- The argument-collecting step of the AnyAuth fold, projected on the argument
map. -/
def anyAuthArgStep (a : JSObj GraphQLArg) (p : String × ProcessedSecurityScheme) :
    JSObj GraphQLArg :=
  JSObj.insert a (sanitize p.1) ⟨GraphQLType.inputObject p.1 p.2.schema⟩

/-- The argument-collecting step of the AnyAuth fold, projected on the sanitize
table. -/
def saneStep (mm : JSObj String) (p : String × ProcessedSecurityScheme) : JSObj String :=
  JSObj.insert mm (sanitize p.1) p.1

/-- Does protocol `p` have an `http` scheme with an unsupported (non-`basic`)
sub-scheme in `data`? -/
def unsupportedHttp (data : PreprocessingData) (p : String) : Bool :=
  match JSObj.lookup data.security p with
  | none => false
  | some s => decide (s.def_.type = "http" ∧ s.def_.scheme ≠ some "basic")

/-- The warnings one loop iteration emits for protocol `p`. -/
def warnsOf (data : PreprocessingData) (p : String) : List Warning :=
  match JSObj.lookup data.security p with
  | none => []
  | some s => (classifyType s.def_).2

/-- The loop invariant of `createAndLoadViewer`'s protocol loop. -/
structure LoopInv {F : Type} (data : PreprocessingData) (isMutation : Bool)
    (st : ViewerBuildState F) : Prop where
  used_struct : ∀ t l, JSObj.lookup st.usedViewerNames t = some l →
    l = kindNames isMutation t l.length
  names_form : ∀ x ∈ JSObj.keys st.results, ∃ t, t ∈ allowedKinds ∧ ∃ j,
    x = nameAt isMutation t j ∧
      j < ((JSObj.lookup st.usedViewerNames t).getD []).length
  results_nodup : (JSObj.keys st.results).Nodup
  resolvers : ∀ q ∈ st.results, ∃ prot, (JSObj.lookup data.security prot).isSome = true ∧
    q.2.resolve = viewerResolve prot

/-! ## Concrete example fixtures -/

/-- An example OpenAPI document. -/
def exOas : Oas3 := ⟨⟨"Example API"⟩⟩

/-- An example API-key scheme. -/
def exApiKeyScheme : ProcessedSecurityScheme :=
  ⟨"api_key", ⟨"apiKey", none⟩, [("token", "the API key")], "apiKeySchema", exOas⟩

/-- An example HTTP basic authentication scheme, declaring `username` before
`password`. -/
def exBasicScheme : ProcessedSecurityScheme :=
  ⟨"basic_auth", ⟨"http", some "basic"⟩,
    [("username", "the user name"), ("password", "the password")], "basicSchema", exOas⟩

/-- An example HTTP scheme with the unsupported `digest` sub-scheme. -/
def exDigestScheme : ProcessedSecurityScheme :=
  ⟨"digest_auth", ⟨"http", some "digest"⟩, [], "digestSchema", exOas⟩

/-- Example preprocessing data with three protocols. -/
def exData : PreprocessingData :=
  ⟨[("apiKeyAuth", exApiKeyScheme), ("basicAuth", exBasicScheme),
    ("digestAuth", exDigestScheme)], []⟩

/-- Example query fields for the three protocols. -/
def exQF : JSObj (JSObj String) :=
  [("apiKeyAuth", [("f1", "q1")]), ("basicAuth", [("f2", "q2")]),
    ("digestAuth", [("f3", "q3")])]

/-- Example preprocessing data with three protocols of the same kind. -/
def exData3 : PreprocessingData :=
  ⟨[("k1", exApiKeyScheme), ("k2", exApiKeyScheme), ("k3", exApiKeyScheme)], []⟩

/-- Example query fields for the three same-kind protocols. -/
def exQF3 : JSObj (JSObj String) := [("k1", []), ("k2", []), ("k3", [])]

/-- Example preprocessing data whose protocols are declared out of
lexicographic order. -/
def exDataUnsorted : PreprocessingData :=
  ⟨[("zAuth", exApiKeyScheme), ("aAuth", exBasicScheme)], []⟩

/-- The same security schemes as `exDataUnsorted`, declared in the opposite
order. -/
def exDataUnsortedRev : PreprocessingData :=
  ⟨[("aAuth", exBasicScheme), ("zAuth", exApiKeyScheme)], []⟩

/-! ## Lemmas about the JavaScript object model -/

theorem JSObj.lookup_insert_self {α : Type} (o : JSObj α) (k : String) (v : α) :
    JSObj.lookup (JSObj.insert o k v) k = some v := by
  induction o with
  | nil => simp [JSObj.insert, JSObj.lookup]
  | cons h t ih =>
    by_cases hk : h.1 = k
    · simp [JSObj.insert, JSObj.lookup, hk]
    · simpa [JSObj.insert, JSObj.lookup, hk] using ih

theorem JSObj.lookup_insert_ne {α : Type} (o : JSObj α) (k1 k2 : String) (v : α)
    (h : k1 ≠ k2) : JSObj.lookup (JSObj.insert o k1 v) k2 = JSObj.lookup o k2 := by
  induction o with
  | nil => simp [JSObj.insert, JSObj.lookup, h]
  | cons hd t ih =>
    by_cases hk : hd.1 = k1
    · simp [JSObj.insert, JSObj.lookup, hk, h, Ne.symm h]
    · by_cases hk2 : hd.1 = k2 <;>
        simp [JSObj.insert, JSObj.lookup, hk, hk2, Ne.symm h, ih]

theorem JSObj.insert_eq_of_lookup {α : Type} (o : JSObj α) (k : String) (v : α)
    (h : JSObj.lookup o k = some v) : JSObj.insert o k v = o := by
  induction o with
  | nil => simp [JSObj.lookup] at h
  | cons hd t ih =>
    obtain ⟨k1, v1⟩ := hd
    by_cases hk : k1 = k
    · subst hk
      have hv : v = v1 := by simp [JSObj.lookup] at h; exact h.symm
      subst hv
      simp [JSObj.insert]
    · simp only [JSObj.lookup, if_neg hk] at h
      simp [JSObj.insert, hk, ih h]

theorem JSObj.lookup_eq_none_iff {α : Type} (o : JSObj α) (k : String) :
    JSObj.lookup o k = none ↔ k ∉ JSObj.keys o := by
  induction o with
  | nil => simp [JSObj.lookup, JSObj.keys]
  | cons hd t ih =>
    obtain ⟨k1, v1⟩ := hd
    by_cases hk : k1 = k
    · subst hk
      simp [JSObj.lookup, JSObj.keys]
    · simp only [JSObj.lookup, if_neg hk, JSObj.keys, List.map_cons, List.mem_cons, not_or]
      constructor
      · intro hnone
        exact ⟨fun hh => hk hh.symm, by simpa [JSObj.keys] using ih.mp hnone⟩
      · intro hh
        exact ih.mpr (by simpa [JSObj.keys] using hh.2)

theorem JSObj.mem_keys_of_lookup {α : Type} (o : JSObj α) (k : String) (v : α)
    (h : JSObj.lookup o k = some v) : k ∈ JSObj.keys o := by
  by_contra hmem
  rw [← JSObj.lookup_eq_none_iff] at hmem
  rw [h] at hmem
  cases hmem

theorem JSObj.insert_of_not_mem {α : Type} (o : JSObj α) (k : String) (v : α)
    (h : k ∉ JSObj.keys o) : JSObj.insert o k v = o ++ [(k, v)] := by
  induction o with
  | nil => simp [JSObj.insert]
  | cons hd t ih =>
    simp only [JSObj.keys, List.map_cons, List.mem_cons, not_or] at h
    have h1 : ¬ hd.1 = k := fun hh => h.1 hh.symm
    simp [JSObj.insert, h1, ih (by simpa [JSObj.keys] using h.2)]

theorem JSObj.keys_insert_of_not_mem {α : Type} (o : JSObj α) (k : String) (v : α)
    (h : k ∉ JSObj.keys o) : JSObj.keys (JSObj.insert o k v) = JSObj.keys o ++ [k] := by
  simp [JSObj.insert_of_not_mem o k v h, JSObj.keys]

theorem JSObj.keys_insert_of_mem {α : Type} (o : JSObj α) (k : String) (v : α)
    (h : k ∈ JSObj.keys o) : JSObj.keys (JSObj.insert o k v) = JSObj.keys o := by
  induction o with
  | nil => simp [JSObj.keys] at h
  | cons hd t ih =>
    by_cases hk : hd.1 = k
    · simp [JSObj.insert, hk, JSObj.keys]
    · simp only [JSObj.keys, List.map_cons, List.mem_cons] at h
      rcases h with h | h


      · exact absurd h.symm hk
      · have := ih (by simpa [JSObj.keys] using h)
        simp only [JSObj.keys] at this
        simp [JSObj.insert, hk, JSObj.keys, this]

theorem JSObj.mem_keys_insert_self {α : Type} (o : JSObj α) (k : String) (v : α) :
    k ∈ JSObj.keys (JSObj.insert o k v) := by
  by_cases h : k ∈ JSObj.keys o
  · rw [JSObj.keys_insert_of_mem o k v h]; exact h
  · rw [JSObj.keys_insert_of_not_mem o k v h]; simp

theorem JSObj.mem_keys_insert_of_mem {α : Type} (o : JSObj α) (k k2 : String) (v : α)
    (h : k2 ∈ JSObj.keys o) : k2 ∈ JSObj.keys (JSObj.insert o k v) := by
  by_cases hk : k ∈ JSObj.keys o
  · rw [JSObj.keys_insert_of_mem o k v hk]; exact h
  · rw [JSObj.keys_insert_of_not_mem o k v hk]; exact List.mem_append_left _ h

/-- Folding key-value insertions over a list with pairwise-distinct fresh keys
appends the corresponding entries in order. -/
theorem JSObj.foldl_insert_eq_append {α γ : Type} (k : α → String) (f : α → γ) :
    ∀ (l : List α) (acc : JSObj γ), (∀ a ∈ l, k a ∉ JSObj.keys acc) →
      (l.map k).Nodup →
      l.foldl (fun o a => JSObj.insert o (k a) (f a)) acc =
        acc ++ l.map (fun a => (k a, f a)) := by
  intro l
  induction l with
  | nil => intro acc _ _; simp
  | cons hd t ih =>
    intro acc hfresh hnd
    simp only [List.map_cons, List.nodup_cons, List.mem_map] at hnd
    have h1 : k hd ∉ JSObj.keys acc := hfresh hd (List.mem_cons_self hd t)
    have step : JSObj.insert acc (k hd) (f hd) = acc ++ [(k hd, f hd)] :=
      JSObj.insert_of_not_mem acc (k hd) (f hd) h1
    simp only [List.foldl_cons, step]
    rw [ih (acc ++ [(k hd, f hd)])
      (by
        intro a ha
        simp only [JSObj.keys, List.map_append, List.mem_append, List.map_cons]
        rintro (hmem | hmem)
        · exact hfresh a (List.mem_cons_of_mem hd ha) hmem
        · simp only [List.map_nil, List.mem_singleton] at hmem
          exact hnd.1 ⟨a, ha, hmem⟩)
      hnd.2]
    simp

/-! ## Decimal rendering: correctness and injectivity -/

theorem decodeDecimal_append (l : List Char) (c : Char) :
    decodeDecimal (l ++ [c]) = decodeDecimal l * 10 + (c.toNat - 48) := by
  simp [decodeDecimal, List.foldl_append]

theorem char_digit_toNat : ∀ d, d < 10 → (Char.ofNat (48 + d)).toNat = 48 + d := by decide

theorem decode_natToChars : ∀ (fuel n : Nat), n ≤ fuel →
    decodeDecimal (natToChars fuel n) = n := by
  intro fuel
  induction fuel with
  | zero =>
    intro n hn
    interval_cases n
    simp [natToChars, decodeDecimal]
  | succ fuel ih =>
    intro n hn
    by_cases h0 : n = 0
    · simp [natToChars, h0, decodeDecimal]
    · have hdiv : n / 10 ≤ fuel := by
        have : n / 10 < n := Nat.div_lt_self (Nat.pos_of_ne_zero h0) (by omega)
        omega
      have hmod : n % 10 < 10 := Nat.mod_lt n (by omega)
      simp only [natToChars, if_neg h0]
      rw [decodeDecimal_append, ih (n / 10) hdiv, char_digit_toNat (n % 10) hmod]
      omega

theorem decode_natToString (n : Nat) : decodeDecimal (natToString n).data = n := by
  by_cases h0 : n = 0
  · subst h0; decide
  · simp only [natToString, if_neg h0]
    exact decode_natToChars n n le_rfl

theorem natToString_injective (a b : Nat) (h : natToString a = natToString b) : a = b := by
  have := congrArg (fun s => decodeDecimal s.data) h
  simpa [decode_natToString] using this

theorem natToChars_ne_nil (fuel n : Nat) (h1 : 0 < n) (h2 : n ≤ fuel) :
    natToChars fuel n ≠ [] := by
  cases fuel with
  | zero => omega
  | succ fuel =>
    have h0 : ¬ n = 0 := by omega
    simp [natToChars, h0]

theorem natToString_ne_empty (n : Nat) : natToString n ≠ "" := by
  by_cases h0 : n = 0
  · subst h0; decide
  · simp only [natToString, if_neg h0]
    intro h
    exact natToChars_ne_nil n n (Nat.pos_of_ne_zero h0) le_rfl (congrArg String.data h)

/-! ## Prefix reasoning on allocated viewer names -/

theorem isPref_append (l t : List Char) : isPref l (l ++ t) = true := by
  induction l with
  | nil => simp [isPref]
  | cons a as ih => simp [isPref, ih]

theorem isPref_of_append_eq : ∀ (l1 l2 t1 t2 : List Char), l1 ++ t1 = l2 ++ t2 →
    isPref l1 l2 = true ∨ isPref l2 l1 = true := by
  intro l1
  induction l1 with
  | nil => intro l2 t1 t2 _; left; rfl
  | cons a as ih =>
    intro l2 t1 t2 h
    cases l2 with
    | nil => right; rfl
    | cons b bs =>
      simp only [List.cons_append, List.cons.injEq] at h
      rcases ih bs t1 t2 h.2 with hp | hp <;> simp [isPref, h.1, hp]

theorem nameAt_zero (m : Bool) (t : String) : nameAt m t 0 = baseViewerName m t := by
  simp [nameAt, nameSuffix]

theorem isPref_base_nameAt (m : Bool) (t : String) (i : Nat) :
    isPref (baseViewerName m t).data (nameAt m t i).data = true := by
  simp only [nameAt, String.data_append]
  exact isPref_append _ _

theorem base_not_pref_base : ∀ t1 ∈ allowedKinds, ∀ t2 ∈ allowedKinds, t1 ≠ t2 →
    (isPref (baseViewerName false t1).data (baseViewerName false t2).data = false ∧
      isPref (baseViewerName true t1).data (baseViewerName true t2).data = false) := by
  decide

theorem base_not_pref_anyAuth : ∀ t ∈ allowedKinds,
    (isPref (baseViewerName false t).data (anyAuthObjectName false).data = false ∧
      isPref (baseViewerName true t).data (anyAuthObjectName true).data = false) := by
  decide

theorem nameAt_ne_cross (m : Bool) (t1 t2 : String) (h1 : t1 ∈ allowedKinds)
    (h2 : t2 ∈ allowedKinds) (hne : t1 ≠ t2) (i j : Nat) :
    nameAt m t1 i ≠ nameAt m t2 j := by
  intro heq
  have hdata : (baseViewerName m t1).data ++ (nameSuffix i).data =
      (baseViewerName m t2).data ++ (nameSuffix j).data := by
    have := congrArg String.data heq
    simpa [nameAt, String.data_append] using this
  rcases isPref_of_append_eq _ _ _ _ hdata with hp | hp
  · cases m with
    | false => rw [(base_not_pref_base t1 h1 t2 h2 hne).1] at hp; cases hp
    | true => rw [(base_not_pref_base t1 h1 t2 h2 hne).2] at hp; cases hp
  · cases m with
    | false => rw [(base_not_pref_base t2 h2 t1 h1 hne.symm).1] at hp; cases hp
    | true => rw [(base_not_pref_base t2 h2 t1 h1 hne.symm).2] at hp; cases hp

theorem nameAt_ne_anyAuth (m : Bool) (t : String) (ht : t ∈ allowedKinds) (i : Nat) :
    nameAt m t i ≠ anyAuthObjectName m := by
  intro heq
  have hp : isPref (baseViewerName m t).data (anyAuthObjectName m).data = true := by
    rw [← heq]
    exact isPref_base_nameAt m t i
  cases m with
  | false => rw [(base_not_pref_anyAuth t ht).1] at hp; cases hp
  | true => rw [(base_not_pref_anyAuth t ht).2] at hp; cases hp

theorem nameAt_inj (m : Bool) (t : String) (i j : Nat)
    (h : nameAt m t i = nameAt m t j) : i = j := by
  have hdata : (baseViewerName m t).data ++ (nameSuffix i).data =
      (baseViewerName m t).data ++ (nameSuffix j).data := by
    have := congrArg String.data h
    simpa [nameAt, String.data_append] using this
  have hsuf : nameSuffix i = nameSuffix j :=
    String.ext (List.append_cancel_left hdata)
  by_cases hi : i = 0 <;> by_cases hj : j = 0
  · omega
  · exfalso
    simp only [nameSuffix, if_pos hi, if_neg hj] at hsuf
    exact natToString_ne_empty (j + 1) hsuf.symm
  · exfalso
    simp only [nameSuffix, if_neg hi, if_pos hj] at hsuf
    exact natToString_ne_empty (i + 1) hsuf
  · simp only [nameSuffix, if_neg hi, if_neg hj] at hsuf
    have := natToString_injective (i + 1) (j + 1) hsuf
    omega

theorem kindNames_nodup (m : Bool) (t : String) (n : Nat) : (kindNames m t n).Nodup := by
  refine List.Nodup.map_on ?_ (List.nodup_range n)
  intro x _ y _ hxy
  exact nameAt_inj m t x y hxy

theorem mem_kindNames (m : Bool) (t : String) (n : Nat) (x : String) :
    x ∈ kindNames m t n ↔ ∃ i, i < n ∧ x = nameAt m t i := by
  simp only [kindNames, List.mem_map, List.mem_range]
  constructor
  · rintro ⟨i, hi, rfl⟩; exact ⟨i, hi, rfl⟩
  · rintro ⟨i, hi, rfl⟩; exact ⟨i, hi, rfl⟩

theorem kindNames_succ (m : Bool) (t : String) (n : Nat) :
    kindNames m t (n + 1) = kindNames m t n ++ [nameAt m t n] := by
  simp [kindNames, List.range_succ]

/-- The collision handling of the loop: starting from the registry list of a
kind, the allocated name is `nameAt` at the next index, and the extended list
is the registry list at the next count. -/
theorem allocName_eq (m : Bool) (t : String) (l : List String)
    (hl : l = kindNames m t l.length) :
    ((if baseViewerName m t ∈ l then
        baseViewerName m t ++ natToString (l.length + 1)
      else baseViewerName m t) = nameAt m t l.length) ∧
      l ++ [nameAt m t l.length] = kindNames m t (l.length + 1) := by
  constructor
  · by_cases hn : l.length = 0
    · have hnil : l = [] := List.eq_nil_of_length_eq_zero hn
      rw [hnil]
      simp [hn, nameAt_zero]
    · have hmem : baseViewerName m t ∈ l := by
        rw [hl, ← nameAt_zero m t]
        rw [mem_kindNames]
        exact ⟨0, Nat.pos_of_ne_zero hn, rfl⟩
      rw [if_pos hmem]
      simp [nameAt, nameSuffix, hn]
  · rw [kindNames_succ]
    rw [← hl]

/-! ## The lexicographic order used by the key sort -/

theorem charLexLe_total : ∀ a b : List Char, charLexLe a b = true ∨ charLexLe b a = true := by
  intro a
  induction a with
  | nil => intro b; left; rfl
  | cons x xs ih =>
    intro b
    cases b with
    | nil => right; rfl
    | cons y ys =>
      by_cases hxy : x = y
      · rcases ih ys with hp | hp <;> simp [charLexLe, hxy, hp]
      · rcases lt_trichotomy x y with hlt | heq | hgt
        · left; simp [charLexLe, hxy, hlt]
        · exact absurd heq hxy
        · right; simp [charLexLe, Ne.symm hxy, hgt]

theorem charLexLe_trans : ∀ a b c : List Char, charLexLe a b = true →
    charLexLe b c = true → charLexLe a c = true := by
  intro a
  induction a with
  | nil => intro b c _ _; rfl
  | cons x xs ih =>
    intro b c hab hbc
    cases b with
    | nil => simp [charLexLe] at hab
    | cons y ys =>
      cases c with
      | nil => simp [charLexLe] at hbc
      | cons z zs =>
        by_cases hxy : x = y <;> by_cases hyz : y = z
        · subst hxy; subst hyz
          simp only [charLexLe, if_pos rfl] at hab hbc ⊢
          exact ih ys zs hab hbc
        · subst hxy
          simp [charLexLe, hyz] at hbc ⊢
          simp [hbc]
        · subst hyz
          simp [charLexLe, hxy] at hab ⊢
          simp [hab]
        · simp only [charLexLe, if_neg hxy, decide_eq_true_eq] at hab
          simp only [charLexLe, if_neg hyz, decide_eq_true_eq] at hbc
          have hxz : x < z := lt_trans hab hbc
          simp [charLexLe, ne_of_lt hxz, hxz]

theorem charLexLe_antisymm : ∀ a b : List Char, charLexLe a b = true →
    charLexLe b a = true → a = b := by
  intro a
  induction a with
  | nil =>
    intro b _ hba
    cases b with
    | nil => rfl
    | cons y ys => simp [charLexLe] at hba
  | cons x xs ih =>
    intro b hab hba
    cases b with
    | nil => simp [charLexLe] at hab
    | cons y ys =>
      by_cases hxy : x = y
      · subst hxy
        simp only [charLexLe, if_pos rfl] at hab hba
        rw [ih ys hab hba]
      · simp only [charLexLe, if_neg hxy, decide_eq_true_eq] at hab
        simp only [charLexLe, if_neg (Ne.symm hxy), decide_eq_true_eq] at hba
        exact absurd hba (lt_asymm hab)

theorem lexLe_antisymm (a b : String) (hab : lexLe a b = true) (hba : lexLe b a = true) :
    a = b :=
  String.ext (charLexLe_antisymm a.data b.data hab hba)

theorem sortObject_sorted {α : Type} (o : JSObj α) : (sortObject o).Pairwise keyLe := by
  haveI : IsTotal (String × α) keyLe :=
    ⟨fun a b => charLexLe_total a.1.data b.1.data⟩
  haveI : IsTrans (String × α) keyLe :=
    ⟨fun a b c hab hbc => charLexLe_trans a.1.data b.1.data c.1.data hab hbc⟩
  exact List.sorted_insertionSort keyLe o

theorem sortObject_perm {α : Type} (o : JSObj α) : (sortObject o).Perm o :=
  List.perm_insertionSort keyLe o

theorem sortObject_keys_sorted {α : Type} (o : JSObj α) :
    (JSObj.keys (sortObject o)).Pairwise (fun a b => lexLe a b = true) := by
  exact List.Pairwise.map Prod.fst (fun a b hab => hab) (sortObject_sorted o)

/-! ## Classification lemmas -/

theorem classifyType_mem_allowedKinds (d : SecurityDef) (h : d.type ∈ allowedTypes) :
    (classifyType d).1 ∈ allowedKinds := by
  by_cases ht : d.type = "http"
  · simp only [classifyType, if_pos ht]
    cases d.scheme with
    | none => simp [allowedKinds]
    | some s => by_cases hs : s = "basic" <;> simp [hs, allowedKinds]
  · simp only [classifyType, if_neg ht]
    simp only [allowedTypes, List.mem_cons, List.not_mem_nil, or_false] at h
    rcases h with h | h | h | h
    · simp [h, allowedKinds]
    · exact absurd h ht
    · simp [h, allowedKinds]
    · simp [h, allowedKinds]

theorem classifyType_warnings_length (d : SecurityDef) :
    (classifyType d).2.length =
      if d.type = "http" ∧ d.scheme ≠ some "basic" then 1 else 0 := by
  by_cases ht : d.type = "http"
  · simp only [classifyType, if_pos ht]
    cases d.scheme with
    | none => simp [ht, handleWarning]
    | some s =>
      by_cases hs : s = "basic"
      · simp [hs, ht]
      · simp [hs, ht, handleWarning]
  · simp [classifyType, ht]

/-! ## The protocol loop -/

theorem JSObj.mem_insert {α : Type} (o : JSObj α) (k : String) (v : α)
    (q : String × α) (h : q ∈ JSObj.insert o k v) : q ∈ o ∨ q = (k, v) := by
  induction o with
  | nil => simpa [JSObj.insert] using h
  | cons hd t ih =>
    by_cases hk : hd.1 = k
    · simp only [JSObj.insert, if_pos hk, List.mem_cons] at h
      rcases h with h | h
      · right; rw [h, ← hk]
      · left; exact List.mem_cons_of_mem hd h
    · simp only [JSObj.insert, if_neg hk, List.mem_cons] at h
      rcases h with h | h
      · left; rw [h]; exact List.mem_cons_self hd t
      · rcases ih h with h2 | h2
        · left; exact List.mem_cons_of_mem hd h2
        · right; exact h2

/-- One successful loop iteration, written out: the protocol's scheme exists,
so the step classifies it, allocates the (possibly suffixed) name, extends the
registry and the result map, merges the AnyAuth fields and appends the
classification warnings. -/
theorem viewerLoopStep_eq {F : Type} (data : PreprocessingData) (m : Bool)
    (oass : List Oas3) (st : ViewerBuildState F) (e : String × JSObj F)
    (s : ProcessedSecurityScheme) (hs : JSObj.lookup data.security e.1 = some s) :
    ∃ v : Viewer F, v.resolve = viewerResolve e.1 ∧
      viewerLoopStep data m oass st e = some
        { results :=
            JSObj.insert st.results
              (if baseViewerName m (classifyType s.def_).1 ∈
                  ((JSObj.lookup st.usedViewerNames (classifyType s.def_).1).getD []) then
                baseViewerName m (classifyType s.def_).1 ++
                  natToString
                    (((JSObj.lookup st.usedViewerNames
                        (classifyType s.def_).1).getD []).length + 1)
              else baseViewerName m (classifyType s.def_).1) v
          usedViewerNames :=
            JSObj.insert st.usedViewerNames (classifyType s.def_).1
              (((JSObj.lookup st.usedViewerNames (classifyType s.def_).1).getD []) ++
                [(if baseViewerName m (classifyType s.def_).1 ∈
                      ((JSObj.lookup st.usedViewerNames (classifyType s.def_).1).getD []) then
                    baseViewerName m (classifyType s.def_).1 ++
                      natToString
                        (((JSObj.lookup st.usedViewerNames
                            (classifyType s.def_).1).getD []).length + 1)
                  else baseViewerName m (classifyType s.def_).1)])
          anyAuthFields := JSObj.assign st.anyAuthFields e.2
          warnings := st.warnings ++ (classifyType s.def_).2 } := by
  simp only [viewerLoopStep, hs, getViewerOT]
  exact ⟨_, rfl, rfl⟩

theorem WellFormedEntry.elim_exists (data : PreprocessingData) (p : String)
    (h : WellFormedEntry data p) :
    ∃ s, JSObj.lookup data.security p = some s ∧ s.def_.type ∈ allowedTypes := by
  rcases hlk : JSObj.lookup data.security p with _ | s
  · simp [WellFormedEntry, hlk] at h
  · refine ⟨s, rfl, ?_⟩
    simpa [WellFormedEntry, hlk] using h

/-- Extending one kind's registry list with the allocated name preserves the
registry characterization. -/
theorem usedRegistry_step (m : Bool) (used : JSObj (List String)) (t : String)
    (hus : ∀ t2 l2, JSObj.lookup used t2 = some l2 → l2 = kindNames m t2 l2.length) :
    ∀ t2 l2, JSObj.lookup (JSObj.insert used t
        (((JSObj.lookup used t).getD []) ++
          [if baseViewerName m t ∈ ((JSObj.lookup used t).getD []) then
              baseViewerName m t ++
                natToString (((JSObj.lookup used t).getD []).length + 1)
            else baseViewerName m t])) t2 = some l2 →
      l2 = kindNames m t2 l2.length := by
  have hl : (JSObj.lookup used t).getD [] =
      kindNames m t ((JSObj.lookup used t).getD []).length := by
    rcases hlk : JSObj.lookup used t with _ | l0
    · simp [kindNames]
    · simp only [Option.getD_some]
      exact hus t l0 hlk
  have halloc := allocName_eq m t _ hl
  intro t2 l2 hlk2
  by_cases hteq : t = t2
  · subst hteq
    rw [JSObj.lookup_insert_self] at hlk2
    injection hlk2 with h2
    subst h2
    rw [halloc.1, List.length_append, List.length_singleton]
    exact halloc.2
  · rw [JSObj.lookup_insert_ne _ _ _ _ hteq] at hlk2
    exact hus t2 l2 hlk2

/-- One well-formed loop iteration succeeds, preserves the loop invariant,
appends exactly one fresh name to the result keys and appends the protocol's
classification warnings. -/
theorem viewerLoopStep_spec {F : Type} (data : PreprocessingData) (m : Bool)
    (oass : List Oas3) (st : ViewerBuildState F) (e : String × JSObj F)
    (s : ProcessedSecurityScheme) (hs : JSObj.lookup data.security e.1 = some s)
    (hty : s.def_.type ∈ allowedTypes) (hinv : LoopInv data m st) :
    ∃ st3 nm, viewerLoopStep data m oass st e = some st3 ∧ LoopInv data m st3 ∧
      JSObj.keys st3.results = JSObj.keys st.results ++ [nm] ∧
      st3.warnings = st.warnings ++ warnsOf data e.1 := by
  obtain ⟨v, hv, hstep⟩ := viewerLoopStep_eq data m oass st e s hs
  have hused := usedRegistry_step m st.usedViewerNames (classifyType s.def_).1
    hinv.used_struct
  have hl : (JSObj.lookup st.usedViewerNames (classifyType s.def_).1).getD [] =
      kindNames m (classifyType s.def_).1
        ((JSObj.lookup st.usedViewerNames (classifyType s.def_).1).getD []).length := by
    rcases hlk : JSObj.lookup st.usedViewerNames (classifyType s.def_).1 with _ | l0
    · simp [kindNames]
    · simp only [Option.getD_some]
      exact hinv.used_struct _ l0 hlk
  have halloc := allocName_eq m (classifyType s.def_).1 _ hl
  have htk : (classifyType s.def_).1 ∈ allowedKinds :=
    classifyType_mem_allowedKinds s.def_ hty
  have hfresh :
      (if baseViewerName m (classifyType s.def_).1 ∈
          ((JSObj.lookup st.usedViewerNames (classifyType s.def_).1).getD []) then
        baseViewerName m (classifyType s.def_).1 ++
          natToString
            (((JSObj.lookup st.usedViewerNames
                (classifyType s.def_).1).getD []).length + 1)
      else baseViewerName m (classifyType s.def_).1) ∉ JSObj.keys st.results := by
    rw [halloc.1]
    intro hmem
    obtain ⟨t2, ht2, j, hx, hj⟩ := hinv.names_form _ hmem
    by_cases hteq : (classifyType s.def_).1 = t2
    · subst hteq
      have := nameAt_inj m (classifyType s.def_).1 _ j hx
      omega
    · exact nameAt_ne_cross m (classifyType s.def_).1 t2 htk ht2 hteq _ j hx
  refine ⟨_, _, hstep, ?_, JSObj.keys_insert_of_not_mem _ _ _ hfresh,
    by simp only [warnsOf, hs]⟩
  · constructor
    · exact hused
    · intro x hx
      rw [JSObj.keys_insert_of_not_mem _ _ _ hfresh, List.mem_append,
        List.mem_singleton] at hx
      rcases hx with hx | hx
      · obtain ⟨t2, ht2, j, hxe, hj⟩ := hinv.names_form x hx
        refine ⟨t2, ht2, j, hxe, ?_⟩
        by_cases hteq : (classifyType s.def_).1 = t2
        · subst hteq
          rw [JSObj.lookup_insert_self]
          simp only [Option.getD_some, List.length_append, List.length_singleton]
          omega
        · rw [JSObj.lookup_insert_ne _ _ _ _ hteq]
          exact hj
      · subst hx
        refine ⟨(classifyType s.def_).1, htk,
          ((JSObj.lookup st.usedViewerNames (classifyType s.def_).1).getD []).length,
          halloc.1, ?_⟩
        rw [JSObj.lookup_insert_self]
        simp
    · rw [JSObj.keys_insert_of_not_mem _ _ _ hfresh, List.nodup_append]
      exact ⟨hinv.results_nodup, List.nodup_singleton _,
        fun a ha hb => (List.mem_singleton.mp hb ▸ hfresh) (List.mem_singleton.mp hb ▸ ha)⟩
    · intro q hq
      rcases JSObj.mem_insert _ _ _ _ hq with hq2 | hq2
      · exact hinv.resolvers q hq2
      · subst hq2
        exact ⟨e.1, by rw [hs]; rfl, hv⟩

/-- The protocol loop of `createAndLoadViewer`: under well-formed entries it
succeeds, preserves the invariant, appends one fresh distinct name per
protocol to the result keys and emits exactly the classification warnings of
the processed protocols, in order. -/
theorem viewerLoop_spec {F : Type} (data : PreprocessingData) (m : Bool)
    (oass : List Oas3) :
    ∀ (entries : List (String × JSObj F)) (st : ViewerBuildState F),
      LoopInv data m st →
      (∀ e ∈ entries, WellFormedEntry data e.1) →
      ∃ st2, viewerLoop data m oass entries st = some st2 ∧ LoopInv data m st2 ∧
        (∃ fresh : List String,
          JSObj.keys st2.results = JSObj.keys st.results ++ fresh ∧
          fresh.length = entries.length) ∧
        st2.warnings = st.warnings ++
          (entries.map (fun e => warnsOf data e.1)).flatten := by
  intro entries
  induction entries with
  | nil =>
    intro st hinv _
    exact ⟨st, rfl, hinv, ⟨[], by simp, rfl⟩, by simp⟩
  | cons e rest ih =>
    intro st hinv hwf
    obtain ⟨s, hs, hty⟩ :=
      WellFormedEntry.elim_exists data e.1 (hwf e (List.mem_cons_self e rest))
    obtain ⟨st3, nm, hstep, hinv3, hkeys3, hw3⟩ :=
      viewerLoopStep_spec data m oass st e s hs hty hinv
    obtain ⟨st2, hrun, hinv2, ⟨fresh, hkeys2, hlen⟩, hw2⟩ :=
      ih st3 hinv3 (fun e2 he2 => hwf e2 (List.mem_cons_of_mem e he2))
    refine ⟨st2, ?_, hinv2, ⟨nm :: fresh, ?_, ?_⟩, ?_⟩
    · simp only [viewerLoop, hstep]
      exact hrun
    · rw [hkeys2, hkeys3, List.append_assoc]
      rfl
    · simp [hlen]
    · rw [hw2, hw3, List.map_cons, List.flatten_cons, List.append_assoc]

/-! ## The AnyAuth viewer: argument fold and sanitize table fold -/

theorem foldl_pair_split :
    ∀ (sec : JSObj ProcessedSecurityScheme) (acc : JSObj GraphQLArg) (mm : JSObj String),
      List.foldl
        (fun (acc2 : JSObj GraphQLArg × JSObj String) p =>
          let r := sanitizeAndStore p.1 acc2.2
          (JSObj.insert acc2.1 r.1 ⟨GraphQLType.inputObject p.1 p.2.schema⟩, r.2))
        (acc, mm) sec =
      (List.foldl anyAuthArgStep acc sec, List.foldl saneStep mm sec) := by
  intro sec
  induction sec with
  | nil => intro acc mm; rfl
  | cons q rest ih =>
    intro acc mm
    simp only [List.foldl_cons]
    rw [← ih]
    rfl

theorem getViewerAnyAuthOT_eq {F : Type} (name : String) (qf : JSObj F)
    (data : PreprocessingData) (oass : List Oas3) :
    (getViewerAnyAuthOT name qf data oass).1.args =
        sortObject (List.foldl anyAuthArgStep [] data.security) ∧
      (getViewerAnyAuthOT name qf data oass).1.resolve = anyAuthResolve ∧
      (getViewerAnyAuthOT name qf data oass).2 =
        List.foldl saneStep data.saneMap data.security := by
  unfold getViewerAnyAuthOT
  rw [foldl_pair_split]
  exact ⟨rfl, rfl, rfl⟩

theorem lookup_foldl_saneStep_of_ne (k : String) :
    ∀ (sec : JSObj ProcessedSecurityScheme) (mm : JSObj String),
      (∀ p ∈ sec, sanitize p.1 ≠ k) →
      JSObj.lookup (List.foldl saneStep mm sec) k = JSObj.lookup mm k := by
  intro sec
  induction sec with
  | nil => intro mm _; rfl
  | cons q rest ih =>
    intro mm hne
    simp only [List.foldl_cons]
    rw [ih (saneStep mm q) (fun p hp => hne p (List.mem_cons_of_mem q hp))]
    exact JSObj.lookup_insert_ne mm (sanitize q.1) k q.1
      (hne q (List.mem_cons_self q rest))

theorem lookup_foldl_saneStep_self (p : String × ProcessedSecurityScheme) :
    ∀ (sec : JSObj ProcessedSecurityScheme) (mm : JSObj String), p ∈ sec →
      (sec.map (fun q => sanitize q.1)).Nodup →
      JSObj.lookup (List.foldl saneStep mm sec) (sanitize p.1) = some p.1 := by
  intro sec
  induction sec with
  | nil => intro mm hmem _; cases hmem
  | cons q rest ih =>
    intro mm hmem hnd
    simp only [List.map_cons, List.nodup_cons, List.mem_map] at hnd
    rcases List.mem_cons.mp hmem with hq | hq
    · subst hq
      simp only [List.foldl_cons]
      rw [lookup_foldl_saneStep_of_ne (sanitize p.1) rest (saneStep mm p)
        (fun r hr hcol => hnd.1 ⟨r, hr, hcol⟩)]
      exact JSObj.lookup_insert_self mm (sanitize p.1) p.1
    · simp only [List.foldl_cons]
      exact ih (saneStep mm q) hq hnd.2

theorem anyAuthArgs_eq_map (sec : JSObj ProcessedSecurityScheme)
    (hn : (sec.map (fun q => sanitize q.1)).Nodup) :
    List.foldl anyAuthArgStep [] sec =
      sec.map (fun q =>
        (sanitize q.1, (⟨GraphQLType.inputObject q.1 q.2.schema⟩ : GraphQLArg))) := by
  have h := JSObj.foldl_insert_eq_append
    (fun q : String × ProcessedSecurityScheme => sanitize q.1)
    (fun q => (⟨GraphQLType.inputObject q.1 q.2.schema⟩ : GraphQLArg)) sec []
    (by intro a _; simp [JSObj.keys]) hn
  simpa [anyAuthArgStep] using h

theorem mem_keys_foldl_anyAuthArgStep_mono (x : String) :
    ∀ (sec : JSObj ProcessedSecurityScheme) (acc : JSObj GraphQLArg),
      x ∈ JSObj.keys acc → x ∈ JSObj.keys (List.foldl anyAuthArgStep acc sec) := by
  intro sec
  induction sec with
  | nil => intro acc h; exact h
  | cons q rest ih =>
    intro acc h
    simp only [List.foldl_cons]
    exact ih _ (JSObj.mem_keys_insert_of_mem acc (sanitize q.1) x _ h)

theorem mem_keys_foldl_anyAuthArgStep (p : String × ProcessedSecurityScheme) :
    ∀ (sec : JSObj ProcessedSecurityScheme) (acc : JSObj GraphQLArg), p ∈ sec →
      sanitize p.1 ∈ JSObj.keys (List.foldl anyAuthArgStep acc sec) := by
  intro sec
  induction sec with
  | nil => intro acc hmem; cases hmem
  | cons q rest ih =>
    intro acc hmem
    rcases List.mem_cons.mp hmem with hq | hq
    · subst hq
      simp only [List.foldl_cons]
      exact mem_keys_foldl_anyAuthArgStep_mono (sanitize p.1) rest _
        (JSObj.mem_keys_insert_self acc (sanitize p.1) _)
    · simp only [List.foldl_cons]
      exact ih _ hq

/-! ## The assembled behavior of `createAndLoadViewer` -/

theorem LoopInv_init {F : Type} (data : PreprocessingData) (m : Bool) :
    LoopInv data m (⟨[], [], [], []⟩ : ViewerBuildState F) := by
  constructor
  · intro t l h; cases h
  · intro x hx; cases hx
  · exact List.nodup_nil
  · intro q hq; cases hq

/-- Everything the orchestrator guarantees under well-formed input: it
succeeds; the sanitize table ends as the registration fold over all security
schemes; the warnings are exactly the per-protocol classification warnings in
order; the result keys are the per-protocol names followed by the fixed
AnyAuth name, without duplicates; every stored resolver is either the AnyAuth
resolver or the per-protocol resolver of an existing protocol; and the AnyAuth
entry carries the sorted argument fold. -/
theorem createAndLoadViewer_spec {F : Type} (qf : JSObj (JSObj F))
    (data : PreprocessingData) (m : Bool) (oass : List Oas3)
    (hwf : ∀ e ∈ qf, WellFormedEntry data e.1) :
    ∃ res names,
      createAndLoadViewer qf data m oass = some
        (res, List.foldl saneStep data.saneMap data.security,
          (qf.map (fun e => warnsOf data e.1)).flatten) ∧
      JSObj.keys res = names ++ [anyAuthObjectName m] ∧
      names.length = qf.length ∧
      (JSObj.keys res).Nodup ∧
      (∀ q ∈ res, q.2.resolve = anyAuthResolve ∨
        ∃ prot, (JSObj.lookup data.security prot).isSome = true ∧
          q.2.resolve = viewerResolve prot) ∧
      ∃ vAny, JSObj.lookup res (anyAuthObjectName m) = some vAny ∧
        vAny.resolve = anyAuthResolve ∧
        vAny.args = sortObject (List.foldl anyAuthArgStep [] data.security) := by
  obtain ⟨st2, hrun, hinv2, ⟨fresh, hkeys2, hlen⟩, hw2⟩ :=
    viewerLoop_spec data m oass qf ⟨[], [], [], []⟩ (LoopInv_init data m) hwf
  have hany : anyAuthObjectName m ∉ JSObj.keys st2.results := by
    intro hmem
    obtain ⟨t2, ht2, j, hx, _⟩ := hinv2.names_form _ hmem
    exact nameAt_ne_anyAuth m t2 ht2 j hx.symm
  have hres_keys :
      JSObj.keys (JSObj.insert st2.results (anyAuthObjectName m)
        (getViewerAnyAuthOT (anyAuthObjectName m) st2.anyAuthFields data oass).1) =
      JSObj.keys st2.results ++ [anyAuthObjectName m] :=
    JSObj.keys_insert_of_not_mem _ _ _ hany
  have hOT := getViewerAnyAuthOT_eq (anyAuthObjectName m) st2.anyAuthFields data oass
  refine ⟨JSObj.insert st2.results (anyAuthObjectName m)
    (getViewerAnyAuthOT (anyAuthObjectName m) st2.anyAuthFields data oass).1,
    fresh, ?_, ?_, hlen, ?_, ?_, ?_⟩
  · simp only [createAndLoadViewer, hrun]
    rw [hOT.2.2, hw2]
    simp
  · rw [hres_keys, hkeys2]
    simp [JSObj.keys]
  · rw [hres_keys, hkeys2, List.nodup_append]
    refine ⟨by
      have h := hinv2.results_nodup
      rw [hkeys2] at h
      simpa using h, List.nodup_singleton _, ?_⟩
    intro a ha hb
    rw [List.mem_singleton] at hb
    subst hb
    apply hany
    rw [hkeys2]
    exact ha
  · intro q hq
    rcases JSObj.mem_insert _ _ _ _ hq with hq2 | hq2
    · obtain ⟨prot, hp1, hp2⟩ := hinv2.resolvers q hq2
      exact Or.inr ⟨prot, hp1, hp2⟩
    · subst hq2
      exact Or.inl hOT.2.1
  · refine ⟨_, JSObj.lookup_insert_self _ _ _, hOT.2.1, hOT.1⟩

/-! ## Remaining helper lemmas -/

theorem JSObj.mem_of_lookup {α : Type} (o : JSObj α) (k : String) (v : α)
    (h : JSObj.lookup o k = some v) : (k, v) ∈ o := by
  induction o with
  | nil => cases h
  | cons hd t ih =>
    obtain ⟨k1, v1⟩ := hd
    by_cases hk : k1 = k
    · subst hk
      have hv : v1 = v := by simpa [JSObj.lookup] using h
      subst hv
      exact List.mem_cons_self _ t
    · simp only [JSObj.lookup, if_neg hk] at h
      exact List.mem_cons_of_mem _ (ih h)

theorem JSObj.length_eq_keys_length {α : Type} (o : JSObj α) :
    o.length = (JSObj.keys o).length := by
  simp [JSObj.keys]

theorem charLexLe_refl : ∀ a : List Char, charLexLe a a = true := by
  intro a
  induction a with
  | nil => rfl
  | cons x xs ih => simp [charLexLe, ih]

/-- Two key-sorted association lists with the same entries (as a multiset) and
duplicate-free keys are equal. -/
theorem sorted_keyLe_eq {α : Type} :
    ∀ (l1 l2 : JSObj α), l1.Perm l2 → l1.Pairwise keyLe → l2.Pairwise keyLe →
      (l1.map Prod.fst).Nodup → l1 = l2 := by
  intro l1
  induction l1 with
  | nil =>
    intro l2 hp _ _ _
    exact List.Perm.nil_eq hp
  | cons a l1 ih =>
    intro l2 hp hs1 hs2 hnd
    cases l2 with
    | nil => exact absurd hp.symm (by simp)
    | cons b l2 =>
      have hab : a = b := by
        by_contra hne
        have hbmem : b ∈ a :: l1 := hp.symm.subset (List.mem_cons_self b l2)
        have hamem : a ∈ b :: l2 := hp.subset (List.mem_cons_self a l1)
        have hb1 : b ∈ l1 := by
          rcases List.mem_cons.mp hbmem with h | h
          · exact absurd h.symm hne
          · exact h
        have ha2 : a ∈ l2 := by
          rcases List.mem_cons.mp hamem with h | h
          · exact absurd h hne
          · exact h
        have hk1 : keyLe a b := (List.pairwise_cons.mp hs1).1 b hb1
        have hk2 : keyLe b a := (List.pairwise_cons.mp hs2).1 a ha2
        have hkeq : a.1 = b.1 := lexLe_antisymm a.1 b.1 hk1 hk2
        have hnd2 : ((b :: l2).map Prod.fst).Nodup :=
          ((hp.map Prod.fst).nodup_iff).mp hnd
        simp only [List.map_cons, List.nodup_cons] at hnd2
        exact hnd2.1 (hkeq ▸ List.mem_map_of_mem Prod.fst ha2)
      subst hab
      have htail := hp.cons_inv
      simp only [List.map_cons, List.nodup_cons] at hnd
      rw [ih l2 htail (List.pairwise_cons.mp hs1).2 (List.pairwise_cons.mp hs2).2 hnd.2]

theorem warnsOf_length (data : PreprocessingData) (p : String) :
    (warnsOf data p).length = if unsupportedHttp data p then 1 else 0 := by
  unfold warnsOf unsupportedHttp
  rcases hlk : JSObj.lookup data.security p with _ | s
  · rfl
  · rw [classifyType_warnings_length]
    by_cases hcond : s.def_.type = "http" ∧ s.def_.scheme ≠ some "basic" <;>
      simp [hcond]

theorem warns_flatten_length {F : Type} (data : PreprocessingData) :
    ∀ ps : List (String × JSObj F),
      ((ps.map (fun e => warnsOf data e.1)).flatten).length =
        (ps.map Prod.fst).countP (fun p => unsupportedHttp data p) := by
  intro ps
  induction ps with
  | nil => rfl
  | cons e rest ih =>
    simp only [List.map_cons, List.flatten_cons, List.length_append, ih,
      List.countP_cons, warnsOf_length]
    by_cases hu : unsupportedHttp data e.1
    · simp [hu]
      omega
    · simp [hu]

/-! ## Claim C1 -/

/-- C1: for every input `fieldsByProtocol` with `N` distinct protocol keys,
each having a well-formed entry in `PreprocessingData.security`,
`createAndLoadViewer` returns a mapping with exactly `N + 1` entries; all
returned viewer names are distinct; and the fixed AnyAuth name
(`viewerAnyAuth`, or `mutationViewerAnyAuth` in mutation mode) never equals
any per-protocol viewer name (the keys are the per-protocol names followed by
the AnyAuth name, and the whole key list has no duplicates). -/
theorem createAndLoadViewer_count_distinct {F : Type} (queryFields : JSObj (JSObj F))
    (data : PreprocessingData) (isMutation : Bool) (oass : List Oas3)
    (hdistinct : (JSObj.keys queryFields).Nodup)
    (hwf : ∀ e ∈ queryFields, WellFormedEntry data e.1) :
    ∃ res sane warns,
      createAndLoadViewer queryFields data isMutation oass = some (res, sane, warns) ∧
      res.length = queryFields.length + 1 ∧
      ∃ names, JSObj.keys res = names ++ [anyAuthObjectName isMutation] ∧
        names.length = queryFields.length ∧ (JSObj.keys res).Nodup := by
  obtain ⟨res, names, hrun, hkeys, hlen, hnd, _, _⟩ :=
    createAndLoadViewer_spec queryFields data isMutation oass hwf
  refine ⟨res, _, _, hrun, ?_, names, hkeys, hlen, hnd⟩
  rw [JSObj.length_eq_keys_length, hkeys]
  simp [hlen]

/-- Witness for C1: a concrete three-protocol input (api key, http basic and
http digest) in query mode. -/
theorem createAndLoadViewer_count_distinct_witness :
    (JSObj.keys exQF).Nodup ∧ (∀ e ∈ exQF, WellFormedEntry exData e.1) ∧
    ∃ res sane warns,
      createAndLoadViewer exQF exData false [exOas] = some (res, sane, warns) ∧
      res.length = exQF.length + 1 ∧
      ∃ names, JSObj.keys res = names ++ [anyAuthObjectName false] ∧
        names.length = exQF.length ∧ (JSObj.keys res).Nodup :=
  ⟨by decide, by decide,
    createAndLoadViewer_count_distinct exQF exData false [exOas] (by decide) (by decide)⟩

/-! ## Claim C2 -/

theorem viewerLoop_used_char {F : Type} (data : PreprocessingData) (m : Bool)
    (oass : List Oas3) :
    ∀ (entries : List (String × JSObj F)) (st st2 : ViewerBuildState F),
      (∀ t l, JSObj.lookup st.usedViewerNames t = some l →
        l = kindNames m t l.length) →
      viewerLoop data m oass entries st = some st2 →
      ∀ t l, JSObj.lookup st2.usedViewerNames t = some l →
        l = kindNames m t l.length := by
  intro entries
  induction entries with
  | nil =>
    intro st st2 hst hrun
    simp only [viewerLoop, Option.some.injEq] at hrun
    subst hrun
    exact hst
  | cons e rest ih =>
    intro st st2 hst hrun
    rcases hlk : JSObj.lookup data.security e.1 with _ | s
    · simp only [viewerLoop, viewerLoopStep, hlk] at hrun
      cases hrun
    · obtain ⟨v, hv, hstep⟩ := viewerLoopStep_eq data m oass st e s hlk
      simp only [viewerLoop, hstep] at hrun
      exact ih _ st2 (usedRegistry_step m st.usedViewerNames _ hst) hrun

/-- C2: the name allocator keeps every kind's name list duplicate-free.  After
any run of the protocol loop from the empty registry, each auth-kind's list is
exactly the base name followed by suffixed variants (the `i`-th allocation gets
the numeric suffix `i + 1`, the then-current list length plus one), so any
number of protocols of the same auth-kind — three or more included — receive
pairwise different per-protocol viewer names. -/
theorem viewerLoop_allocator_distinct {F : Type} (data : PreprocessingData)
    (isMutation : Bool) (oass : List Oas3) (entries : List (String × JSObj F))
    (st2 : ViewerBuildState F)
    (hrun : viewerLoop data isMutation oass entries ⟨[], [], [], []⟩ = some st2) :
    ∀ t l, JSObj.lookup st2.usedViewerNames t = some l →
      l = kindNames isMutation t l.length ∧ l.Nodup := by
  intro t l hlk
  have hchar := viewerLoop_used_char data isMutation oass entries _ st2
    (fun t2 l2 h => by simp [JSObj.lookup] at h) hrun t l hlk
  refine ⟨hchar, ?_⟩
  rw [hchar]
  exact kindNames_nodup isMutation t l.length

/-- Witness for C2: three protocols of the same `apiKey` kind receive the
names `viewerApiKey`, `viewerApiKey2`, `viewerApiKey3`. -/
theorem viewerLoop_allocator_distinct_witness :
    ∃ (st2 : ViewerBuildState String) (l : List String),
      viewerLoop exData3 false [exOas] exQF3 ⟨[], [], [], []⟩ = some st2 ∧
      JSObj.lookup st2.usedViewerNames "apiKey" = some l ∧
      (l = kindNames false "apiKey" l.length ∧ l.Nodup) ∧
      l = ["viewerApiKey", "viewerApiKey2", "viewerApiKey3"] := by
  refine ⟨_, _, rfl, rfl, ?_, by decide⟩
  exact viewerLoop_allocator_distinct exData3 false [exOas] exQF3 _ rfl "apiKey" _ rfl

/-! ## Claim C3 -/

/-- C3: classification maps an `http` scheme with sub-scheme `basic` to the
auth-kind `basicAuth` (with no warning); any other `http` sub-scheme emits
exactly one warning per occurrence; and no exception is raised — for
well-formed input the orchestrator still returns a result whose warning list
has exactly one entry per unsupported occurrence and whose mapping holds a
viewer for every protocol (all `N` protocols plus AnyAuth). -/
theorem classifyType_http_spec :
    (∀ d : SecurityDef, d.type = "http" → d.scheme = some "basic" →
      classifyType d = ("basicAuth", [])) ∧
    (∀ d : SecurityDef, d.type = "http" → d.scheme ≠ some "basic" →
      (classifyType d).2.length = 1) ∧
    (∀ (F : Type) (queryFields : JSObj (JSObj F)) (data : PreprocessingData)
      (isMutation : Bool) (oass : List Oas3),
      (∀ e ∈ queryFields, WellFormedEntry data e.1) →
      ∃ res sane warns,
        createAndLoadViewer queryFields data isMutation oass =
          some (res, sane, warns) ∧
        warns.length =
          (queryFields.map Prod.fst).countP (fun p => unsupportedHttp data p) ∧
        res.length = queryFields.length + 1) := by
  refine ⟨?_, ?_, ?_⟩
  · intro d ht hs
    simp [classifyType, ht, hs]
  · intro d ht hs
    rw [classifyType_warnings_length]
    simp [ht, hs]
  · intro F queryFields data isMutation oass hwf
    obtain ⟨res, names, hrun, hkeys, hlen, _, _, _⟩ :=
      createAndLoadViewer_spec queryFields data isMutation oass hwf
    refine ⟨res, _, _, hrun, warns_flatten_length data queryFields, ?_⟩
    rw [JSObj.length_eq_keys_length, hkeys]
    simp [hlen]

/-- Witness for C3: `http`/`basic` classifies to `basicAuth`; `http`/`digest`
emits one warning; and the concrete three-protocol run (containing the digest
protocol) succeeds with exactly one warning and four result entries. -/
theorem classifyType_http_spec_witness :
    classifyType ⟨"http", some "basic"⟩ = ("basicAuth", []) ∧
    (classifyType ⟨"http", some "digest"⟩).2.length = 1 ∧
    ∃ res sane warns,
      createAndLoadViewer exQF exData false [exOas] = some (res, sane, warns) ∧
      warns.length = (exQF.map Prod.fst).countP (fun p => unsupportedHttp exData p) ∧
      res.length = exQF.length + 1 :=
  ⟨classifyType_http_spec.1 ⟨"http", some "basic"⟩ rfl rfl,
    classifyType_http_spec.2.1 ⟨"http", some "digest"⟩ rfl (by decide),
    classifyType_http_spec.2.2 String exQF exData false [exOas] (by decide)⟩

/-! ## Claim C4 -/

/-- C4: a per-protocol viewer's resolve function ignores `parentValue` and
`requestContext` and, for any `args`, returns exactly
`{ _openapiToGraphql: { security: { <sanitizedProtocolName>: args } } }`,
where the sanitized protocol name is the sanitize-and-register image of the
protocol's name (the register side effect on the table is the second
component). -/
theorem getViewerOT_resolve_spec {F : Type} (name protocolName type : String)
    (queryFields : JSObj F) (data : PreprocessingData) (oass : List Oas3)
    (v : Viewer F)
    (hv : getViewerOT name protocolName type queryFields data oass = some v)
    (root root2 args ctx ctx2 : JSValue) (mm : JSObj String) :
    v.resolve root args ctx mm =
      (JSValue.obj [("_openapiToGraphql", JSValue.obj [("security",
        JSValue.obj [((sanitizeAndStore protocolName mm).1, args)])])],
        (sanitizeAndStore protocolName mm).2) ∧
    v.resolve root args ctx mm = v.resolve root2 args ctx2 mm := by
  have hres : v.resolve = viewerResolve protocolName := by
    unfold getViewerOT at hv
    rcases hlk : JSObj.lookup data.security protocolName with _ | s
    · rw [hlk] at hv
      cases hv
    · rw [hlk] at hv
      simp only [Option.some.injEq] at hv
      rw [← hv]
  rw [hres]
  exact ⟨rfl, rfl⟩

/-- Witness for C4: for protocol `apiKeyAuth` and args `{token: "abc"}` the
resolver returns
`{_openapiToGraphql: {security: {apiKeyAuth: {token: "abc"}}}}`. -/
theorem getViewerOT_resolve_spec_witness :
    ∃ v : Viewer String,
      getViewerOT "viewerApiKey" "apiKeyAuth" "apiKey" [("f1", "q1")] exData
        [exOas] = some v ∧
      v.resolve (JSValue.obj []) (JSValue.obj [("token", JSValue.str "abc")])
          (JSValue.obj []) [] =
        (JSValue.obj [("_openapiToGraphql", JSValue.obj [("security",
          JSValue.obj [("apiKeyAuth",
            JSValue.obj [("token", JSValue.str "abc")])])])],
          [("apiKeyAuth", "apiKeyAuth")]) := by
  refine ⟨_, rfl, ?_⟩
  rw [(getViewerOT_resolve_spec "viewerApiKey" "apiKeyAuth" "apiKey"
    [("f1", "q1")] exData [exOas] _ rfl (JSValue.obj [])
    (JSValue.obj []) (JSValue.obj [("token", JSValue.str "abc")])
    (JSValue.obj []) (JSValue.obj []) []).1]
  rfl

/-! ## Claim C5 -/

/-- C5: the AnyAuth viewer's resolve function returns exactly
`{ _openapiToGraphql: { security: args } }` for any `args`, passing `args`
through unmodified (not nested under any protocol key), ignoring `root` and
`ctx` and leaving the sanitize table untouched. -/
theorem getViewerAnyAuthOT_resolve_spec {F : Type} (name : String)
    (queryFields : JSObj F) (data : PreprocessingData) (oass : List Oas3)
    (root root2 args ctx ctx2 : JSValue) (mm : JSObj String) :
    (getViewerAnyAuthOT name queryFields data oass).1.resolve root args ctx mm =
      (JSValue.obj [("_openapiToGraphql", JSValue.obj [("security", args)])], mm) ∧
    (getViewerAnyAuthOT name queryFields data oass).1.resolve root args ctx mm =
      (getViewerAnyAuthOT name queryFields data oass).1.resolve root2 args ctx2 mm := by
  rw [(getViewerAnyAuthOT_eq name queryFields data oass).2.1]
  exact ⟨rfl, rfl⟩

/-! ## Claim C6 -/

/-- C6: a per-protocol viewer's argument map has one entry per credential
parameter of the scheme, in the scheme's declared parameter order with no
reordering, and every argument's type is a required (non-nullable) string. -/
theorem getViewerOT_args_spec {F : Type} (name protocolName type : String)
    (queryFields : JSObj F) (data : PreprocessingData) (oass : List Oas3)
    (v : Viewer F) (sch : ProcessedSecurityScheme)
    (hs : JSObj.lookup data.security protocolName = some sch)
    (hv : getViewerOT name protocolName type queryFields data oass = some v)
    (hnd : (JSObj.keys sch.parameters).Nodup) :
    v.args = sch.parameters.map
      (fun q => (q.1, (⟨GraphQLType.nonNull GraphQLType.string⟩ : GraphQLArg))) := by
  unfold getViewerOT at hv
  rw [hs] at hv
  simp only [Option.some.injEq] at hv
  rw [← hv]
  have h := JSObj.foldl_insert_eq_append (fun q : String × String => q.1)
    (fun _ => (⟨GraphQLType.nonNull GraphQLType.string⟩ : GraphQLArg))
    sch.parameters [] (by intro a _; simp [JSObj.keys]) (by simpa [JSObj.keys] using hnd)
  simpa using h

/-- Witness for C6: a basic-auth scheme declaring `[username, password]`
yields the arguments in exactly that order, both required strings. -/
theorem getViewerOT_args_spec_witness :
    ∃ v : Viewer String,
      getViewerOT "viewerBasicAuth" "basicAuth" "basicAuth" [("f2", "q2")] exData
        [exOas] = some v ∧
      v.args = [("username", ⟨GraphQLType.nonNull GraphQLType.string⟩),
        ("password", ⟨GraphQLType.nonNull GraphQLType.string⟩)] := by
  refine ⟨_, rfl, ?_⟩
  rw [getViewerOT_args_spec "viewerBasicAuth" "basicAuth" "basicAuth"
    [("f2", "q2")] exData [exOas] _ exBasicScheme rfl rfl (by decide)]
  rfl

/-! ## Claim C7 -/

/-- C7: the AnyAuth viewer's argument map has one entry per protocol keyed by
the protocol's sanitized name, and its keys are sorted lexicographically;
consequently two declarations of the same schemes in any order produce the
same argument map, so the output ordering is deterministic across builds. -/
theorem getViewerAnyAuthOT_args_sorted {F : Type} (name : String)
    (queryFields : JSObj F) (data : PreprocessingData) (oass : List Oas3) :
    (JSObj.keys (getViewerAnyAuthOT name queryFields data oass).1.args).Pairwise
      (fun a b => lexLe a b = true) ∧
    ((data.security.map (fun q => sanitize q.1)).Nodup →
      (getViewerAnyAuthOT name queryFields data oass).1.args.length =
        data.security.length) ∧
    (∀ (data2 : PreprocessingData) (name2 : String) (queryFields2 : JSObj F),
      data2.security.Perm data.security →
      (data.security.map (fun q => sanitize q.1)).Nodup →
      (getViewerAnyAuthOT name2 queryFields2 data2 oass).1.args =
        (getViewerAnyAuthOT name queryFields data oass).1.args) := by
  refine ⟨?_, ?_, ?_⟩
  · rw [(getViewerAnyAuthOT_eq name queryFields data oass).1]
    exact sortObject_keys_sorted _
  · intro hnd
    rw [(getViewerAnyAuthOT_eq name queryFields data oass).1,
      (sortObject_perm _).length_eq, anyAuthArgs_eq_map data.security hnd,
      List.length_map]
  · intro data2 name2 queryFields2 hperm hnd
    have hnd2 : (data2.security.map (fun q => sanitize q.1)).Nodup :=
      ((hperm.map (fun q => sanitize q.1)).nodup_iff).mpr hnd
    rw [(getViewerAnyAuthOT_eq name2 queryFields2 data2 oass).1,
      (getViewerAnyAuthOT_eq name queryFields data oass).1,
      anyAuthArgs_eq_map data2.security hnd2, anyAuthArgs_eq_map data.security hnd]
    have hentry : (data2.security.map (fun q =>
        (sanitize q.1, (⟨GraphQLType.inputObject q.1 q.2.schema⟩ : GraphQLArg)))).Perm
        (data.security.map (fun q =>
          (sanitize q.1, (⟨GraphQLType.inputObject q.1 q.2.schema⟩ : GraphQLArg)))) :=
      hperm.map _
    have hkeysnd : ((sortObject (data2.security.map (fun q =>
        (sanitize q.1, (⟨GraphQLType.inputObject q.1 q.2.schema⟩ : GraphQLArg))))).map
          Prod.fst).Nodup := by
      refine ((sortObject_perm _).map Prod.fst).nodup_iff.mpr ?_
      have : (data2.security.map (fun q =>
          (sanitize q.1, (⟨GraphQLType.inputObject q.1 q.2.schema⟩ : GraphQLArg)))).map
            Prod.fst = data2.security.map (fun q => sanitize q.1) := by
        rw [List.map_map]
        rfl
      rw [this]
      exact hnd2
    refine sorted_keyLe_eq _ _ ?_ (sortObject_sorted _) (sortObject_sorted _) hkeysnd
    exact ((sortObject_perm _).trans hentry).trans (sortObject_perm _).symm

/-- Witness for C7: two protocols declared in the order `zAuth`, `aAuth`
produce the AnyAuth argument keys in sorted order `aAuth`, `zAuth`, and the
reversed declaration order produces the identical argument map. -/
theorem getViewerAnyAuthOT_args_sorted_witness :
    (JSObj.keys (getViewerAnyAuthOT "viewerAnyAuth" ([] : JSObj String)
      exDataUnsorted [exOas]).1.args).Pairwise (fun a b => lexLe a b = true) ∧
    (getViewerAnyAuthOT "viewerAnyAuth" ([] : JSObj String) exDataUnsorted
      [exOas]).1.args.length = exDataUnsorted.security.length ∧
    (getViewerAnyAuthOT "viewerAnyAuth" ([] : JSObj String) exDataUnsortedRev
        [exOas]).1.args =
      (getViewerAnyAuthOT "viewerAnyAuth" ([] : JSObj String) exDataUnsorted
        [exOas]).1.args ∧
    JSObj.keys (getViewerAnyAuthOT "viewerAnyAuth" ([] : JSObj String)
      exDataUnsorted [exOas]).1.args = ["aAuth", "zAuth"] :=
  ⟨(getViewerAnyAuthOT_args_sorted "viewerAnyAuth" [] exDataUnsorted [exOas]).1,
    (getViewerAnyAuthOT_args_sorted "viewerAnyAuth" [] exDataUnsorted [exOas]).2.1
      (by decide),
    (getViewerAnyAuthOT_args_sorted "viewerAnyAuth" [] exDataUnsorted [exOas]).2.2
      exDataUnsortedRev "viewerAnyAuth" [] (List.Perm.swap _ _ _) (by decide),
    by decide⟩

/-! ## Claim C8 -/

/-- C8: after a build, every stored resolve function reads only its enclosing
configuration and the per-call arguments: invoked on the sanitize table the
build produced, it leaves the table unchanged (the re-registration writes back
the binding that is already present) and its result does not depend on
`parentValue` or `requestContext`, so each invocation only produces its
returned security-context value. -/
theorem createAndLoadViewer_resolve_frame {F : Type} (queryFields : JSObj (JSObj F))
    (data : PreprocessingData) (isMutation : Bool) (oass : List Oas3)
    (hwf : ∀ e ∈ queryFields, WellFormedEntry data e.1)
    (hinj : (data.security.map (fun q => sanitize q.1)).Nodup) :
    ∃ res sane warns,
      createAndLoadViewer queryFields data isMutation oass = some (res, sane, warns) ∧
      ∀ q ∈ res, ∀ root root2 args ctx ctx2,
        (q.2.resolve root args ctx sane).2 = sane ∧
        q.2.resolve root args ctx sane = q.2.resolve root2 args ctx2 sane := by
  obtain ⟨res, names, hrun, _, _, _, hresolve, _⟩ :=
    createAndLoadViewer_spec queryFields data isMutation oass hwf
  refine ⟨res, _, _, hrun, ?_⟩
  intro q hq root root2 args ctx ctx2
  rcases hresolve q hq with h | ⟨prot, hsome, h⟩
  · rw [h]
    exact ⟨rfl, rfl⟩
  · rw [h]
    have hps : ∃ s, JSObj.lookup data.security prot = some s := by
      rcases hlk : JSObj.lookup data.security prot with _ | s
      · rw [hlk] at hsome
        cases hsome
      · exact ⟨s, rfl⟩
    obtain ⟨s, hs⟩ := hps
    have hmem : (prot, s) ∈ data.security := JSObj.mem_of_lookup _ _ _ hs
    have hlook : JSObj.lookup (List.foldl saneStep data.saneMap data.security)
        (sanitize prot) = some prot :=
      lookup_foldl_saneStep_self (prot, s) data.security data.saneMap hmem hinj
    refine ⟨?_, rfl⟩
    simp only [viewerResolve, sanitizeAndStore]
    exact JSObj.insert_eq_of_lookup _ _ _ hlook

/-- Witness for C8 at the concrete three-protocol input. -/
theorem createAndLoadViewer_resolve_frame_witness :
    ∃ res sane warns,
      createAndLoadViewer exQF exData false [exOas] = some (res, sane, warns) ∧
      ∀ q ∈ res, ∀ root root2 args ctx ctx2,
        (q.2.resolve root args ctx sane).2 = sane ∧
        q.2.resolve root args ctx sane = q.2.resolve root2 args ctx2 sane :=
  createAndLoadViewer_resolve_frame exQF exData false [exOas] (by decide) (by decide)

/-! ## Claim C9 -/

/-- C9: for an `http` scheme with an unsupported sub-scheme the fallback
auth-kind label is the unchanged top-level kind `http` itself, so the viewer
built for such a single protocol is named the sanitized form of
`viewer http` (`mutation viewer http` in mutation mode), next to the fixed
AnyAuth name. -/
theorem classifyType_http_fallback (s : Option String) (hns : s ≠ some "basic") :
    (classifyType ⟨"http", s⟩).1 = "http" ∧
    ∀ (F : Type) (p : String) (fields : JSObj F) (data : PreprocessingData)
      (isMutation : Bool) (oass : List Oas3) (sch : ProcessedSecurityScheme),
      JSObj.lookup data.security p = some sch → sch.def_ = ⟨"http", s⟩ →
      ∃ res rest,
        createAndLoadViewer [(p, fields)] data isMutation oass = some (res, rest) ∧
        JSObj.keys res =
          [baseViewerName isMutation "http", anyAuthObjectName isMutation] := by
  have hcl1 : (classifyType ⟨"http", s⟩).1 = "http" := by
    cases s with
    | none => rfl
    | some s0 =>
      have h0 : ¬ s0 = "basic" := fun hh => hns (by rw [hh])
      simp [classifyType, h0]
  refine ⟨hcl1, ?_⟩
  intro F p fields data isMutation oass sch hs hdef
  obtain ⟨v, hv, hstep⟩ :=
    viewerLoopStep_eq data isMutation oass ⟨[], [], [], []⟩ (p, fields) sch hs
  rw [hdef, hcl1] at hstep
  simp only [JSObj.lookup, Option.getD_none, List.not_mem_nil, if_false,
    List.nil_append, JSObj.insert] at hstep
  simp only [createAndLoadViewer, viewerLoop, hstep]
  refine ⟨_, _, rfl, ?_⟩
  rw [JSObj.keys_insert_of_not_mem]
  · rfl
  · simp only [JSObj.keys, List.map_cons, List.map_nil, List.mem_singleton]
    cases isMutation <;> decide

/-- Witness for C9: a single `http`/`digest` protocol yields the viewer names
`viewerHttp` and `viewerAnyAuth`. -/
theorem classifyType_http_fallback_witness :
    (classifyType ⟨"http", some "digest"⟩).1 = "http" ∧
    ∃ res rest,
      createAndLoadViewer [("digestAuth", [("f3", "q3")])] exData false [exOas] =
        some (res, rest) ∧
      JSObj.keys res = [baseViewerName false "http", anyAuthObjectName false] ∧
      JSObj.keys res = ["viewerHttp", "viewerAnyAuth"] := by
  have h := classifyType_http_fallback (some "digest") (by decide)
  obtain ⟨res, rest, hr, hk⟩ :=
    h.2 String "digestAuth" [("f3", "q3")] exData false [exOas]
      exDigestScheme rfl rfl
  exact ⟨h.1, res, rest, hr, hk, by rw [hk]; rfl⟩

/-! ## Claim C10 -/

/-- C10: the AnyAuth viewer's argument map is derived from every scheme in
`PreprocessingData.security`, not from the protocols present in
`fieldsByProtocol`: every declared scheme contributes an argument keyed by its
sanitized name, and for an empty `fieldsByProtocol` the orchestrator returns
exactly one entry — the AnyAuth viewer — whose arguments still cover all
declared schemes. -/
theorem getViewerAnyAuthOT_args_cover {F : Type} (data : PreprocessingData)
    (isMutation : Bool) (oass : List Oas3) :
    (∀ (name : String) (queryFields : JSObj F) (p : String × ProcessedSecurityScheme),
      p ∈ data.security →
      sanitize p.1 ∈
        JSObj.keys (getViewerAnyAuthOT name queryFields data oass).1.args) ∧
    ∃ vAny sane warns,
      createAndLoadViewer ([] : JSObj (JSObj F)) data isMutation oass =
        some ([(anyAuthObjectName isMutation, vAny)], sane, warns) ∧
      ∀ p ∈ data.security, sanitize p.1 ∈ JSObj.keys vAny.args := by
  have hmemgen : ∀ (name : String) (queryFields : JSObj F)
      (p : String × ProcessedSecurityScheme), p ∈ data.security →
      sanitize p.1 ∈
        JSObj.keys (getViewerAnyAuthOT name queryFields data oass).1.args := by
    intro name queryFields p hp
    rw [(getViewerAnyAuthOT_eq name queryFields data oass).1]
    have h1 : sanitize p.1 ∈
        JSObj.keys (List.foldl anyAuthArgStep [] data.security) :=
      mem_keys_foldl_anyAuthArgStep p data.security [] hp
    exact ((sortObject_perm _).map Prod.fst).mem_iff.mpr h1
  refine ⟨hmemgen, ?_⟩
  refine ⟨(getViewerAnyAuthOT (anyAuthObjectName isMutation) [] data oass).1,
    _, _, rfl, ?_⟩
  intro p hp
  exact hmemgen _ _ p hp

/-- Witness for C10: with an empty `fieldsByProtocol` and the three declared
schemes, the single AnyAuth entry's arguments cover every declared scheme. -/
theorem getViewerAnyAuthOT_args_cover_witness :
    sanitize "apiKeyAuth" ∈ JSObj.keys (getViewerAnyAuthOT "viewerAnyAuth"
      ([] : JSObj String) exData [exOas]).1.args ∧
    ∃ vAny sane warns,
      createAndLoadViewer ([] : JSObj (JSObj String)) exData false [exOas] =
        some ([(anyAuthObjectName false, vAny)], sane, warns) ∧
      ∀ p ∈ exData.security, sanitize p.1 ∈ JSObj.keys vAny.args :=
  ⟨(getViewerAnyAuthOT_args_cover exData false [exOas]).1 "viewerAnyAuth" []
    ("apiKeyAuth", exApiKeyScheme) (by decide),
    (getViewerAnyAuthOT_args_cover exData false [exOas]).2⟩

end AuthBuilder
